import Mathlib

/-!
Verification development for `git-rebase-chain`.

The Python sources (`git_rebase_chain/git.py`, `git_rebase_chain/cmd.py`) are
shallowly embedded below.  External `git` invocations are modelled by an
oracle (`RepoView`); computations are values of `M α`, a pair of an
`Except Outcome α` result (normal return, `sys.exit`, a propagating
`NonzeroResponse`, or an uncaught Python exception) together with the list of
state-changing git commands actually issued to the engine, in order.
Pure string manipulation (`parse_ref`, `parse_log_line`, the chain walk) is
translated directly.
-/

/-- A git ref, as in `git.py`'s `Ref` TypedDict: `name`, `path`,
`remote` (`none` for a local ref). -/
structure Ref where
  name : String
  path : String
  remote : Option String
deriving DecidableEq, Repr

/-- A git commit, as in `git.py`'s `Commit` TypedDict. -/
structure Commit where
  hash : String
  refs : List Ref
  title : String
deriving DecidableEq, Repr

instance : Inhabited Commit := ⟨⟨"", [], ""⟩⟩

/-- The payload of a `NonzeroResponse` exception (`git.py`, class
`NonzeroResponse`): exit code, captured stdout/stderr, command string. -/
structure GitError where
  code : Int
  stdout : String
  stderr : String
  command : String
deriving DecidableEq, Repr

/-- State-changing git commands the program can issue (the read-only queries
go through the oracle and are not part of the mutation trace). -/
inductive GitCmd where
  /-- `git rebase --onto <onto> <up> <top>` -/
  | rebaseOnto (onto up top : String)
  /-- `git push -f <remote> <refspec>` -/
  | push (remote : String) (refspec : String)
  /-- `git update-ref <path> <hash>` -/
  | updateRef (path : String) (hash : String)
  /-- `git checkout <rev>` -/
  | checkout (rev : String)
deriving DecidableEq, Repr

/-- How a run of (part of) the program ends abnormally: `sys.exit code`, a
propagating `NonzeroResponse`, or an uncaught Python exception such as the
`IndexError` in `apply_rebase`'s read-back. -/
inductive Outcome where
  | exit (code : Nat)
  | procError (e : GitError)
  | pyError
deriving DecidableEq, Repr

/-- A computation: its result and the ordered list of state-changing git
commands it actually executed. -/
abbrev M (α : Type) : Type := Except Outcome α × List GitCmd

/-- Return without effects. -/
def retM {α : Type} (a : α) : M α := (Except.ok a, [])

/-- Sequencing: traces concatenate; an abnormal outcome skips the rest. -/
def bindM {α β : Type} (x : M α) (f : α → M β) : M β :=
  match x with
  | (Except.ok a, tr) =>
    match f a with
    | (r, tr2) => (r, tr ++ tr2)
  | (Except.error e, tr) => (Except.error e, tr)

/-- Abnormal termination without effects. -/
def throwM {α : Type} (e : Outcome) : M α := (Except.error e, [])

/-- The external git engine, as seen by one run.  Read-only queries return the
raw stdout (or a nonzero-exit error); `run` covers the state-changing
commands. -/
structure RepoView where
  /-- `git rev-parse --absolute-git-dir` (used by `get_current_head`). -/
  gitDir : Except GitError String
  /-- Contents of `$GIT_DIR/HEAD` (read directly from the file). -/
  headFile : String
  /-- `git rev-parse --verify <name>`. -/
  revParse : String → Except GitError String
  /-- `git merge-base <a> <b>`. -/
  mergeBase : String → String → Except GitError String
  /-- `git log <base>..<head> --format=format:%H|%d|%f` — arguments are
  `(head, base)`, matching `get_log`'s parameter order. -/
  logRaw : String → String → Except GitError String
  /-- `git remote show`. -/
  remoteShow : Except GitError String
  /-- `git status` (read in the conflict branch of `apply_rebase`). -/
  statusOut : Except GitError String
  /-- State-changing commands; `Except.error` models a nonzero exit. -/
  run : GitCmd → Except GitError String

/-! ## String primitives

Python's `str.strip`, `str.split`, `str.startswith` and slicing are
re-implemented structurally over `String.data` so that every definition
kernel-evaluates on concrete inputs (the core `String` versions use
well-founded recursion and do not reduce). -/

/-- Characters removed by Python's `str.strip()` (whitespace). -/
def trimChars (l : List Char) : List Char :=
  ((l.dropWhile Char.isWhitespace).reverse.dropWhile Char.isWhitespace).reverse

/-- Python `s.strip()`. -/
def strTrim (s : String) : String := ⟨trimChars s.data⟩

/-- Whether `pre` is a leading segment of `l`. -/
def listIsPref : List Char → List Char → Bool
  | [], _ => true
  | _ :: _, [] => false
  | a :: as, b :: bs => a == b && listIsPref as bs

/-- Python `s.startswith(pre)`. -/
def strStartsWith (s pre : String) : Bool := listIsPref pre.data s.data

/-- Python `s[n:]`. -/
def strDrop (s : String) (n : Nat) : String := ⟨s.data.drop n⟩

/-- Python `s[:-n]` (for `n ≤ len(s)`). -/
def strDropRight (s : String) (n : Nat) : String := ⟨s.data.take (s.data.length - n)⟩

/-- Python `len(s)`. -/
def strLen (s : String) : Nat := s.data.length

/-- Python `s.endswith(suf)`. -/
def strEndsWith (s suf : String) : Bool := listIsPref suf.data.reverse s.data.reverse

/-- Python `s[0] == c` (`false` on the empty string, where Python raises). -/
def strFirstIs (s : String) (c : Char) : Bool :=
  match s.data with
  | [] => false
  | a :: _ => a == c

/-- Python `s[-1] == c` (`false` on the empty string, where Python raises). -/
def strLastIs (s : String) (c : Char) : Bool :=
  match s.data.getLast? with
  | none => false
  | some a => a == c

/-- First occurrence of `sep` in the list: the part before it and the part
after it, or `none` when `sep` does not occur. -/
def splitFirst (sep : List Char) : List Char → Option (List Char × List Char)
  | [] => none
  | c :: cs =>
    if listIsPref sep (c :: cs) then some ([], (c :: cs).drop sep.length)
    else
      match splitFirst sep cs with
      | some (pre, post) => some (c :: pre, post)
      | none => none

/-- Fuelled splitting on a (nonempty) separator; `fuel = length + 1` is
always enough since each found separator consumes at least one character. -/
def splitCharsAux (sep : List Char) : Nat → List Char → List (List Char)
  | 0, l => [l]
  | fuel + 1, l =>
    match splitFirst sep l with
    | none => [l]
    | some (pre, post) => pre :: splitCharsAux sep fuel post

/-- Python `s.split(sep)` for a nonempty `sep`. -/
def strSplit (s sep : String) : List String :=
  (splitCharsAux sep.data (s.data.length + 1) s.data).map (fun l => ⟨l⟩)

/-- Newline join, used to build raw engine output in concrete examples. -/
def joinLines : List String → String
  | [] => ""
  | [s] => s
  | s :: rest => s ++ "\n" ++ joinLines rest

/-- `exc` for a read-only command: on exit status 0 the stripped stdout is
returned (`git.py` line 83), otherwise `NonzeroResponse` propagates. -/
def liftRead (x : Except GitError String) : M String :=
  match x with
  | Except.ok s => (Except.ok (strTrim s), [])
  | Except.error e => (Except.error (Outcome.procError e), [])

/-- `exc` for a state-changing command: with `dry` the command is only logged
(`git.py` lines 52-54) and nothing is executed; otherwise it is run and a
nonzero exit raises `NonzeroResponse`.  The trace records issued commands. -/
def excRun (repo : RepoView) (c : GitCmd) (dry : Bool) : M Unit :=
  if dry then (Except.ok (), [])
  else
    match repo.run c with
    | Except.ok _ => (Except.ok (), [c])
    | Except.error e => (Except.error (Outcome.procError e), [c])

/-! ## `parse_ref` (git.py lines 85-114) -/

/-- Whether `"->" in ref` holds (Python substring test), computed the same
way the split is: splitting yields more than one piece iff the separator
occurs. -/
def hasArrow (s : String) : Bool := (strSplit s "->").length != 1

/-- The `for remote in remotes` loop of `parse_ref`: first remote whose
`"<remote>/"` prefixes the token wins (git.py lines 96-102). -/
def findRemoteRef (ref : String) : List String → Option Ref
  | [] => none
  | remote :: rest =>
    if strStartsWith ref (remote ++ "/") then
      some ⟨strDrop ref (strLen remote + 1), ref, some remote⟩
    else findRemoteRef ref rest

/-- The tail of `parse_ref` (git.py lines 104-114): bare name, derived path,
`none` for the detached-HEAD marker. -/
def mkLocalRef (ref : String) : Option Ref :=
  if ref == "HEAD" then none
  else some ⟨ref, "refs/heads/" ++ ref, none⟩

/-- `parse_ref` after decoration stripping (git.py lines 93-114). -/
def classifyStripped (ref : String) (remotes : List String) : Option Ref :=
  if strStartsWith ref "refs/heads/" then mkLocalRef (strDrop ref 11)
  else
    match findRemoteRef ref remotes with
    | some r => some r
    | none => mkLocalRef ref

/-- `parse_ref` (git.py lines 85-114): strip, drop `"->"` decoration by
keeping `split("->")[1]`, then classify. -/
def parse_ref (ref : String) (remotes : List String) : Option Ref :=
  let r1 := strTrim ref
  let r2 := if hasArrow r1 then strTrim ((strSplit r1 "->")[1]!) else r1
  classifyStripped r2 remotes

example : parse_ref "HEAD -> main" [] = some ⟨"main", "refs/heads/main", none⟩ := by decide
example : parse_ref "origin/dev" ["origin"] = some ⟨"dev", "origin/dev", some "origin"⟩ := by
  decide
example : parse_ref "HEAD" ["origin"] = none := by decide
example : parse_ref "refs/heads/HEAD" [] = none := by decide
example : parse_ref "refs/heads/x" [] = some ⟨"x", "refs/heads/x", none⟩ := by decide

/-! ## `parse_log_line` and `get_log` (git.py lines 134-173) -/

/-- `parse_log_line` (git.py lines 134-158): a log line formatted by
`--format=format:%H|%d|%f` is `hash|refs|title`; the refs field is empty or
a parenthesised `", "`-separated list of ref tokens.  The source unpacks
exactly three `"|"` fields, raising `ValueError` otherwise, and indexes
`refs[0]`/`refs[-1]`, raising `IndexError` on a whitespace-only refs field;
both are impossible for engine-formatted lines, and those branches return a
dummy commit here. -/
def parse_log_line (line : String) (remotes : List String) : Commit :=
  match strSplit (strTrim line) "|" with
  | [hash, refsField, title] =>
    if refsField == "" then ⟨hash, [], title⟩
    else
      let r := strTrim refsField
      if strFirstIs r '(' && strLastIs r ')' then
        ⟨hash,
         ((strSplit (strDropRight (strDrop r 1) 1) ", ").map
            (fun tok => parse_ref tok remotes)).reduceOption,
         title⟩
      else ⟨hash, [], title⟩
  | _ => ⟨"", [], ""⟩

/-- `get_log` (git.py lines 160-173): run the ranged log query, resolve the
remote names, parse each nonempty line. -/
def get_log (repo : RepoView) (head base : String) : M (List Commit) :=
  bindM (liftRead (repo.logRaw head base)) fun log =>
  bindM (liftRead repo.remoteShow) fun remotesOut =>
  retM (((strSplit log "\n").filter (fun line => strTrim line != "")).map
          (fun line => parse_log_line line (strSplit remotesOut "\n")))

/-! ## `get_current_head` (git.py lines 116-131) -/

/-- `get_current_head`: resolve the git dir (a failing `rev-parse` raises),
read the `HEAD` file; a `"ref: "` line is parsed with `parse_ref` and its
name returned, otherwise the raw content (Python returns `head[5:]` when the
parse yields no ref, and the unstripped file content when detached). -/
def get_current_head (repo : RepoView) : M String :=
  bindM (liftRead repo.gitDir) fun _git_dir =>
  let head := repo.headFile
  if strStartsWith head "ref: " then
    let head2 := strDrop head 5
    match parse_ref head2 [] with
    | some r => retM r.name
    | none => retM head2
  else retM head

/-! ## `get_target` (git.py lines 175-217) -/

/-- The `for elt in primary_chain` loop of `get_target` (git.py lines
200-207): walk the chain newest-first; stop at the first commit whose title
equals `t`, returning the commits walked past and the match (if any). -/
def chainWalk (chain : List Commit) (t : String) : List Commit × Option Commit :=
  match chain with
  | [] => ([], none)
  | c :: rest =>
    if c.title == t then ([], some c)
    else
      let p := chainWalk rest t
      (c :: p.1, p.2)

/-- `get_target` (git.py lines 175-217): resolve head and target, compute the
merge base, short-circuit with `sys.exit(0)` when already based; read the
candidate chain and the target commit (the sole commit of `target~1..target`;
an empty result is the caught `IndexError`, `sys.exit(1)`); walk the chain for
a title match, `sys.exit(1)` when none. -/
def get_target (repo : RepoView) (head_name target_name : String) :
    M (List Commit × Commit × Commit) :=
  bindM (liftRead (repo.revParse head_name)) fun head =>
  bindM (liftRead (repo.revParse target_name)) fun target =>
  bindM (liftRead (repo.mergeBase head target)) fun merge_base =>
  if merge_base == target then throwM (Outcome.exit 0)
  else
    bindM (get_log repo head merge_base) fun primary_chain =>
    bindM (get_log repo target (target ++ "~1")) fun tlog =>
    match tlog with
    | [] => throwM (Outcome.exit 1)
    | target_commit :: _ =>
      match chainWalk primary_chain target_commit.title with
      | (rebase_chain, some rebase_ancestor) =>
        retM (rebase_chain, rebase_ancestor, target_commit)
      | (_, none) => throwM (Outcome.exit 1)

/-! ## `apply_rebase` (git.py lines 219-247) -/

/-- The `try`/`except NonzeroResponse` around the rebase invocation (git.py
lines 230-244).  Exit status 1 is the conflict class: the source prints
`exc("status")` (which itself can raise) and blocks in the operator wait
loop until a continue acknowledgment, then falls through; every other
nonzero status is caught and silently falls through as well, because the
`except` block has no `else`/re-raise.  The wait loop is modelled as the
operator eventually acknowledging. -/
def tryRebase (repo : RepoView) (onto up top : String) : M Unit :=
  match repo.run (GitCmd.rebaseOnto onto up top) with
  | Except.ok _ => (Except.ok (), [GitCmd.rebaseOnto onto up top])
  | Except.error e =>
    if e.code == 1 then
      match repo.statusOut with
      | Except.ok _ => (Except.ok (), [GitCmd.rebaseOnto onto up top])
      | Except.error e2 => (Except.error (Outcome.procError e2), [GitCmd.rebaseOnto onto up top])
    else (Except.ok (), [GitCmd.rebaseOnto onto up top])

/-- `apply_rebase` (git.py lines 219-247): empty chain is a no-op returning
`none`; otherwise rebase `--onto target ancestor chain[0]` and read back the
new head commit (`@~1..@`); an empty read-back is an uncaught `IndexError`. -/
def apply_rebase (repo : RepoView) (rebase_chain : List Commit)
    (rebase_ancestor target_commit : Commit) : M (Option Commit) :=
  match rebase_chain with
  | [] => retM none
  | top :: _ =>
    bindM (tryRebase repo target_commit.hash rebase_ancestor.hash top.hash) fun _ =>
    bindM (get_log repo "@" "@~1") fun l =>
    match l with
    | [] => throwM Outcome.pyError
    | c :: _ => retM (some c)

/-! ## `relabel` (git.py lines 249-310) -/

/-- `update_remote` (git.py lines 249-262): `git push -f <remote>
<hash>:<name>` through `exc`, honouring `dry`. -/
def update_remote (repo : RepoView) (remote : String) (ref : Ref)
    (target_commit : Commit) (dry : Bool) : M Unit :=
  excRun repo (GitCmd.push remote (target_commit.hash ++ ":" ++ ref.name)) dry

/-- `update_local` (git.py lines 264-276): `git update-ref <path> <hash>`
through `exc`, honouring `dry`. -/
def update_local (repo : RepoView) (ref : Ref) (target_commit : Commit)
    (dry : Bool) : M Unit :=
  excRun repo (GitCmd.updateRef ref.path target_commit.hash) dry

/-- First per-pair loop of `relabel` (git.py lines 298-303): push every ref
whose remote equals the `push` remote, accumulating `pushed_to_remote`. -/
def remoteLoop (repo : RepoView) (push : Option String) (new : Commit)
    (dry : Bool) : List Ref → M Bool
  | [] => retM false
  | ref :: rest =>
    match push with
    | some p =>
      if ref.remote == some p then
        bindM (update_remote repo p ref new dry) fun _ =>
        bindM (remoteLoop repo push new dry rest) fun _ => retM true
      else remoteLoop repo push new dry rest
    | none => remoteLoop repo push new dry rest

/-- Second per-pair loop of `relabel` (git.py lines 305-310): for every local
ref, optionally force-push first (`push` given, `force`, not already pushed),
then always update the local ref. -/
def localLoop (repo : RepoView) (push : Option String) (new : Commit)
    (dry force pushed : Bool) : List Ref → M Unit
  | [] => retM ()
  | ref :: rest =>
    match ref.remote with
    | none =>
      bindM (match push with
             | some p =>
               if force && !pushed then update_remote repo p ref new dry else retM ()
             | none => retM ()) fun _ =>
      bindM (update_local repo ref new dry) fun _ =>
      localLoop repo push new dry force pushed rest
    | some _ => localLoop repo push new dry force pushed rest

/-- One iteration of `relabel`'s pair loop (git.py lines 297-310). -/
def relabelPair (repo : RepoView) (push : Option String) (dry force : Bool)
    (original new : Commit) : M Unit :=
  bindM (remoteLoop repo push new dry original.refs) fun pushed =>
  localLoop repo push new dry force pushed original.refs

/-- `for original, new in zip(...)` (git.py line 297). -/
def relabelPairs (repo : RepoView) (push : Option String) (dry force : Bool) :
    List (Commit × Commit) → M Unit
  | [] => retM ()
  | (o, n) :: rest =>
    bindM (relabelPair repo push dry force o n) fun _ =>
    relabelPairs repo push dry force rest

/-- `relabel` (git.py lines 278-310): read the post-rebase chain
(`target..newTop`); on a length mismatch check out the original chain's
newest commit (`exc` without `dry`) and `sys.exit(1)` — indexing
`original_rebase_chain[0]` on an empty original chain is an uncaught
`IndexError` in the source, raised before the checkout; otherwise process
the position-matched pairs. -/
def relabel (repo : RepoView) (original_rebase_chain : List Commit)
    (target_commit new_commit : Commit) (push : Option String)
    (dry force : Bool) : M Unit :=
  bindM (get_log repo new_commit.hash target_commit.hash) fun new_rebase_chain =>
  if new_rebase_chain.length != original_rebase_chain.length then
    match original_rebase_chain with
    | [] => throwM Outcome.pyError
    | o0 :: _ =>
      bindM (excRun repo (GitCmd.checkout o0.hash) false) fun _ =>
      throwM (Outcome.exit 1)
  else relabelPairs repo push dry force (original_rebase_chain.zip new_rebase_chain)

/-! ## `main` (cmd.py lines 66-95) -/

/-- The parsed CLI arguments `main` consumes (cmd.py lines 11-64):
`target`, `--head` (default `"@"`), `--dry`, `--push`,
`--verbose` (count, default 1), `--quiet`, `--force`. -/
structure Args where
  target : String
  head : String
  dry : Bool
  push : Option String
  verbose : Nat
  quiet : Bool
  force : Bool
deriving DecidableEq, Repr

/-- The body of `main`'s `try` block (cmd.py lines 78-90): resolve, rebase,
relabel.  The result records how the block finished: `true` when execution
falls through to the statement after the `try` (so the final checkout of
cmd.py line 95 is reached), `false` for the `if new_commit is None: return`
of cmd.py lines 80-81 — that `return` exits `main` itself, skipping the
final checkout. -/
def pipeline (repo : RepoView) (args : Args) : M Bool :=
  bindM (get_target repo args.head args.target) fun r =>
  match r with
  | (rebase_chain, rebase_ancestor, target_commit) =>
    bindM (apply_rebase repo rebase_chain rebase_ancestor target_commit) fun newc =>
    match newc with
    | none => retM false
    | some new_commit =>
      bindM (relabel repo rebase_chain target_commit new_commit
               args.push args.dry args.force) fun _ =>
      retM true

/-- `except NonzeroResponse` (cmd.py lines 91-93): only a propagating
`NonzeroResponse` is caught; `sys.exit` (`SystemExit`) and other Python
exceptions pass through. -/
def catchNZ {α : Type} (x : M α) (handler : GitError → M α) : M α :=
  match x with
  | (Except.error (Outcome.procError e), tr) =>
    match handler e with
    | (r, tr2) => (r, tr ++ tr2)
  | other => other

/-- `main` (cmd.py lines 66-95): the quiet/verbose flag conflict exits 1;
record the starting head; run the pipeline with `NonzeroResponse` caught and
reported (a caught exception proceeds past the `try` statement, hence
`retM true`); the final `exc("checkout", current_head)` of line 95 runs only
when the body fell through — the early `return` of lines 80-81 exits `main`
without it, as do `SystemExit` and uncaught exceptions. -/
def mainRun (repo : RepoView) (args : Args) : M Unit :=
  if 1 < args.verbose ∧ args.quiet = true then throwM (Outcome.exit 1)
  else
    bindM (get_current_head repo) fun current_head =>
    bindM (catchNZ (pipeline repo args) (fun _e => retM true)) fun fellThrough =>
    if fellThrough then excRun repo (GitCmd.checkout current_head) false
    else retM ()

/-- The process exit code for a finished run of `main`: normal return 0,
`sys.exit(code)` is that code, an uncaught exception (a `NonzeroResponse`
escaping the final checkout, or an internal Python error) makes the
interpreter exit 1. -/
def exitCodeOf : Except Outcome Unit → Nat
  | Except.ok _ => 0
  | Except.error (Outcome.exit n) => n
  | Except.error (Outcome.procError _) => 1
  | Except.error Outcome.pyError => 1

/-- Ref-mutating commands: remote pushes and local ref updates. -/
def isRefMutation : GitCmd → Bool
  | GitCmd.push _ _ => true
  | GitCmd.updateRef _ _ => true
  | GitCmd.rebaseOnto _ _ _ => false
  | GitCmd.checkout _ => false

deriving instance DecidableEq for Except

/-! ## Linear-history log-range semantics

A faithful model of what `git log base..head` lists on a linear history:
the commits reachable from `head` that are not reachable from `base`,
newest first.  Used to check which commit the size-one range query
`target~1..target` actually reads. -/

/-- The commits reachable from `h` along parent links (including `h`),
newest first; `fuel` bounds the walk and any `fuel ≥` the history depth is
enough. -/
def ancestry (par : String → Option String) : Nat → String → List String
  | 0, h => [h]
  | n + 1, h =>
    h :: (match par h with
          | none => []
          | some p => ancestry par n p)

/-- `git log base..head` on a linear history: ancestors of `head` that are
not ancestors of `base`, newest first. -/
def logRange (par : String → Option String) (fuel : Nat) (head base : String) :
    List String :=
  let excluded := ancestry par fuel base
  (ancestry par fuel head).filter (fun h => !(excluded.contains h))

/-- Git revision resolution for the `<rev>~1` suffix: the parent of the
named commit (no parent means the revision does not resolve and `git log`
exits nonzero). -/
def resolveRev (par : String → Option String) (s : String) : Option String :=
  if strEndsWith s "~1" then par (strDropRight s 2) else some s

/-- One `%H|%d|%f` log line with an empty decoration field. -/
def logLineOf (titleOf : String → String) (h : String) : String :=
  h ++ "||" ++ titleOf h

/-- Raw `git log base..head` output generated from a linear commit graph. -/
def logRawOf (par : String → Option String) (titleOf : String → String)
    (fuel : Nat) (head base : String) : Except GitError String :=
  match resolveRev par base with
  | none => Except.error ⟨128, "", "fatal: bad revision", "git log"⟩
  | some b =>
    match resolveRev par head with
    | none => Except.error ⟨128, "", "fatal: bad revision", "git log"⟩
    | some hd => Except.ok (joinLines ((logRange par fuel hd b).map (logLineOf titleOf)))

/-! ## Concrete repositories used as witnesses and counterexamples -/

/-- A generic nonzero-exit error for unknown revisions. -/
def errRev : GitError := ⟨128, "", "fatal: bad revision", "git rev-parse"⟩

/-- Repository for the chain-walk witness: head `H` with chain
`H (c2), C1 (c1), A (base)` above merge-base `M`; target `T` titled
`base`. -/
def repoC1 : RepoView :=
  ⟨Except.ok "/repo/.git",
   "ref: refs/heads/main\n",
   fun s => if s = "h" then Except.ok "H"
            else if s = "t" then Except.ok "T"
            else Except.error errRev,
   fun _ _ => Except.ok "M",
   fun hd _ => if hd = "H" then Except.ok "H|(HEAD -> main)|c2\nC1||c1\nA||base"
               else if hd = "T" then Except.ok "T||base"
               else Except.ok "",
   Except.ok "origin",
   Except.ok "",
   fun _ => Except.ok ""⟩

/-- The commits of `repoC1`'s candidate chain and target. -/
def c2C1 : Commit := ⟨"H", [⟨"main", "refs/heads/main", none⟩], "c2"⟩

/-- Second chain commit of `repoC1`. -/
def c1C1 : Commit := ⟨"C1", [], "c1"⟩

/-- The old copy of the target in `repoC1`'s chain. -/
def aC1 : Commit := ⟨"A", [], "base"⟩

/-- The target commit read by `repoC1`'s size-one query. -/
def tcC1 : Commit := ⟨"T", [], "base"⟩

example : get_log repoC1 "H" "M" = (Except.ok [c2C1, c1C1, aC1], []) := rfl
example : get_target repoC1 "h" "t" = (Except.ok ([c2C1, c1C1], aC1, tcC1), []) := rfl

/-- Modelled from the spec (§4.5 step 4), for comparison with the
implementation: the ref updates for one position-matched pair — first every
remote-tracking ref of the original commit on the `push` remote is
force-pushed to the new hash; then every local ref is force-pushed first
exactly when `push` is given, `force` is set and the pair was not already
pushed, and is always updated locally to the new hash. -/
def specRefUpdates (push : Option String) (force : Bool) (original new : Commit) :
    List GitCmd :=
  match push with
  | some p =>
    let pushed := original.refs.any (fun r => r.remote == some p)
    ((original.refs.filter (fun r => r.remote == some p)).map
       (fun r => GitCmd.push p (new.hash ++ ":" ++ r.name)))
    ++ ((original.refs.map (fun r =>
          if r.remote.isNone then
            (if force && !pushed then [GitCmd.push p (new.hash ++ ":" ++ r.name)] else [])
            ++ [GitCmd.updateRef r.path new.hash]
          else [])).flatten)
  | none =>
    (original.refs.map (fun r =>
       if r.remote.isNone then [GitCmd.updateRef r.path new.hash] else [])).flatten

/-- Parent links of the linear commit graph used for the target-read check:
`C2 → C1 → A → M` (the head side) and `T → P → M` (the target side). -/
def parC4 : String → Option String := fun h =>
  if h = "C2" then some "C1"
  else if h = "C1" then some "A"
  else if h = "A" then some "M"
  else if h = "T" then some "P"
  else if h = "P" then some "M"
  else none

/-- Titles of the commits of the `parC4` graph; the old copy `A` of the
target shares the target `T`'s title. -/
def titleC4 : String → String := fun h =>
  if h = "C2" then "c2"
  else if h = "C1" then "c1"
  else if h = "A" then "base"
  else if h = "T" then "base"
  else if h = "P" then "p"
  else "m"

/-- Repository over the `parC4` graph, with log queries answered by the
faithful linear-history range semantics. -/
def repoC4 : RepoView :=
  ⟨Except.ok "/repo/.git",
   "ref: refs/heads/main\n",
   fun s => if s = "h" then Except.ok "C2"
            else if s = "t" then Except.ok "T"
            else Except.error errRev,
   fun _ _ => Except.ok "M",
   fun hd bs => logRawOf parC4 titleC4 8 hd bs,
   Except.ok "origin",
   Except.ok "",
   fun _ => Except.ok ""⟩

example : get_log repoC4 "C2" "M" =
    (Except.ok [⟨"C2", [], "c2"⟩, ⟨"C1", [], "c1"⟩, ⟨"A", [], "base"⟩], []) := rfl
example : get_log repoC4 "T" "T~1" = (Except.ok [⟨"T", [], "base"⟩], []) := rfl
example : get_target repoC4 "h" "t" =
    (Except.ok ([⟨"C2", [], "c2"⟩, ⟨"C1", [], "c1"⟩], ⟨"A", [], "base"⟩, ⟨"T", [], "base"⟩),
     []) := rfl

/-- Repository whose target-predecessor range query parses to no commit at
all (raw empty output). -/
def repoC4w : RepoView :=
  ⟨Except.ok "/repo/.git",
   "ref: refs/heads/main\n",
   fun s => if s = "h" then Except.ok "H"
            else if s = "t" then Except.ok "T"
            else Except.error errRev,
   fun _ _ => Except.ok "M",
   fun hd _ => if hd = "H" then Except.ok "A||base" else Except.ok "",
   Except.ok "origin",
   Except.ok "",
   fun _ => Except.ok ""⟩

/-- Repository in which no commit of the candidate chain carries the
target's title: `get_target` fails with `sys.exit(1)`. -/
def repoC5 : RepoView :=
  ⟨Except.ok "/repo/.git",
   "ref: refs/heads/main\n",
   fun s => if s = "h" then Except.ok "H"
            else if s = "t" then Except.ok "T"
            else Except.error errRev,
   fun _ _ => Except.ok "M",
   fun hd _ => if hd = "H" then Except.ok "C2||c2"
               else if hd = "T" then Except.ok "T||base"
               else Except.ok "",
   Except.ok "origin",
   Except.ok "",
   fun _ => Except.ok ""⟩

/-- Repository hitting the empty-chain no-op: the candidate chain's only
commit is the old copy of the target, so nothing needs rebasing. -/
def repoC5w : RepoView :=
  ⟨Except.ok "/repo/.git",
   "ref: refs/heads/main\n",
   fun s => if s = "h" then Except.ok "H"
            else if s = "t" then Except.ok "T"
            else Except.error errRev,
   fun _ _ => Except.ok "M",
   fun hd _ => if hd = "H" then Except.ok "A||base"
               else if hd = "T" then Except.ok "T||base"
               else Except.ok "",
   Except.ok "origin",
   Except.ok "",
   fun _ => Except.ok ""⟩

/-- Default argument vector: `git-rebase-chain t --head h`. -/
def argsPlain : Args := ⟨"t", "h", false, none, 1, false, false⟩

/-- Argument vector with `--dry` set. -/
def argsDry : Args := ⟨"t", "h", true, none, 1, false, false⟩

/-- Repository for a full dry run: one commit `C2` (with local branch
`feat`) to rebase over ancestor `A` onto target `T`; the post-rebase head
reads back as `C2x`. -/
def repoC6 : RepoView :=
  ⟨Except.ok "/repo/.git",
   "ref: refs/heads/main\n",
   fun s => if s = "h" then Except.ok "H"
            else if s = "t" then Except.ok "T"
            else Except.error errRev,
   fun _ _ => Except.ok "M",
   fun hd _ => if hd = "H" then Except.ok "C2|(HEAD -> feat)|c2\nA||base"
               else if hd = "T" then Except.ok "T||base"
               else if hd = "@" then Except.ok "C2x||c2"
               else if hd = "C2x" then Except.ok "C2x||c2"
               else Except.ok "",
   Except.ok "origin",
   Except.ok "",
   fun _ => Except.ok ""⟩

/-- The `NonzeroResponse` of a rebase failing with a non-conflict status. -/
def eC7 : GitError := ⟨128, "", "fatal: invalid upstream", "git rebase"⟩

/-- Repository whose rebase invocation exits 128 (not the conflict class);
all other commands succeed, and the head read-back yields `H0`. -/
def repoC7 : RepoView :=
  ⟨Except.ok "/repo/.git",
   "ref: refs/heads/main\n",
   fun _ => Except.ok "H",
   fun _ _ => Except.ok "M",
   fun hd _ => if hd = "@" then Except.ok "H0||c2" else Except.ok "",
   Except.ok "origin",
   Except.ok "",
   fun c => match c with
            | GitCmd.rebaseOnto _ _ _ => Except.error eC7
            | _ => Except.ok ""⟩

/-- The `NonzeroResponse` of a failing `rev-parse --verify`. -/
def eC8 : GitError := ⟨128, "", "fatal: bad revision", "git rev-parse"⟩

/-- Repository whose revision resolution fails, so a `NonzeroResponse`
propagates out of the pipeline; the final checkout succeeds. -/
def repoC8 : RepoView :=
  ⟨Except.ok "/repo/.git",
   "ref: refs/heads/main\n",
   fun _ => Except.error eC8,
   fun _ _ => Except.ok "M",
   fun _ _ => Except.ok "",
   Except.ok "origin",
   Except.ok "",
   fun _ => Except.ok ""⟩

/-- Repository for the length-mismatch branch of `relabel`: the post-rebase
read yields no commits while the original chain has one. -/
def repoC2 : RepoView :=
  ⟨Except.ok "/repo/.git",
   "ref: refs/heads/main\n",
   fun _ => Except.ok "H",
   fun _ _ => Except.ok "M",
   fun _ _ => Except.ok "",
   Except.ok "origin",
   Except.ok "",
   fun _ => Except.ok ""⟩

example : mainRun repoC5 argsPlain = (Except.error (Outcome.exit 1), []) := rfl
example : mainRun repoC6 argsDry =
    (Except.ok (), [GitCmd.rebaseOnto "T" "A" "C2", GitCmd.checkout "main"]) := rfl
example : mainRun repoC8 argsPlain = (Except.ok (), [GitCmd.checkout "main"]) := rfl
example : apply_rebase repoC7 [⟨"C2", [], "c2"⟩] ⟨"A", [], "base"⟩ ⟨"T", [], "base"⟩ =
    (Except.ok (some ⟨"H0", [], "c2"⟩), [GitCmd.rebaseOnto "T" "A" "C2"]) := rfl

/-! ## Theorems -/

/-- C9 counterexample: the token `"refs/heads/HEAD"` starts with the
local-branch prefix and is not literally the detached-HEAD marker, yet
`parse_ref` classifies it as "not a ref": the `name == "HEAD"` test runs
after prefix stripping, so it also swallows `refs/heads/HEAD`. -/
theorem parse_ref_local_cex :
    strStartsWith "refs/heads/HEAD" "refs/heads/" = true ∧
    ("refs/heads/HEAD" : String) ≠ "HEAD" ∧
    parse_ref "refs/heads/HEAD" [] = none := by
  refine ⟨rfl, by decide, rfl⟩

/-- C9 (amended): a trimmed, decoration-free token starting with
`"refs/heads/"` has the prefix stripped and yields a local `Ref` with the
remainder as its name and derived path — unless the remainder is the
detached-HEAD marker `"HEAD"`, in which case `none` is returned. -/
theorem parse_ref_local (s : String) (remotes : List String)
    (h1 : strTrim s = s) (h2 : hasArrow s = false)
    (h3 : strStartsWith s "refs/heads/" = true) :
    parse_ref s remotes =
      (if strDrop s 11 == "HEAD" then none
       else some ⟨strDrop s 11, "refs/heads/" ++ strDrop s 11, none⟩) := by
  simp [parse_ref, h1, h2, classifyStripped, h3, mkLocalRef]

/-- Witness for `parse_ref_local` at a concrete local-branch token. -/
theorem parse_ref_local_witness :
    parse_ref "refs/heads/feature" ["origin"] =
      (if strDrop "refs/heads/feature" 11 == "HEAD" then none
       else some ⟨strDrop "refs/heads/feature" 11,
                  "refs/heads/" ++ strDrop "refs/heads/feature" 11, none⟩) :=
  parse_ref_local "refs/heads/feature" ["origin"] rfl rfl rfl

/-- C10: whenever the (stripped) token contains `"->"` anywhere, `parse_ref`
discards everything before the first `"->"` and classifies exactly the
second `"->"`-separated segment, whitespace-stripped — the split is on the
bare arrow, not on the literal `"HEAD -> "` decoration. -/
theorem parse_ref_arrow (tok : String) (remotes : List String)
    (h : hasArrow (strTrim tok) = true) :
    parse_ref tok remotes =
      classifyStripped (strTrim ((strSplit (strTrim tok) "->")[1]!)) remotes := by
  simp [parse_ref, h]

/-- Witness for `parse_ref_arrow` at the decorated token `"HEAD -> main"`. -/
theorem parse_ref_arrow_witness :
    parse_ref "HEAD -> main" [] =
      classifyStripped (strTrim ((strSplit (strTrim "HEAD -> main") "->")[1]!)) [] :=
  parse_ref_arrow "HEAD -> main" [] rfl

/-- When no commit of the chain carries the sought title, the walk consumes
the whole chain and finds no ancestor. -/
theorem chainWalk_no_match (chain : List Commit) (t : String)
    (h : ∀ c ∈ chain, c.title ≠ t) : chainWalk chain t = (chain, none) := by
  induction chain with
  | nil => rfl
  | cons c rest ih =>
    have hc : (c.title == t) = false :=
      beq_eq_false_iff_ne.mpr (h c (List.mem_cons_self c rest))
    simp [chainWalk, hc, ih (fun x hx => h x (List.mem_cons_of_mem c hx))]

/-- When position `i` holds the first title match, the walk returns the `i`
commits before it and that commit as the ancestor. -/
theorem chainWalk_match (chain : List Commit) (t : String) :
    ∀ i, (hi : i < chain.length) → (chain[i]).title = t →
    (∀ j, (hj : j < chain.length) → j < i → (chain[j]).title ≠ t) →
    chainWalk chain t = (chain.take i, some chain[i]) := by
  induction chain with
  | nil => intro i hi; exact absurd hi (Nat.not_lt_zero i)
  | cons c rest ih =>
    intro i hi hm hb
    cases i with
    | zero =>
      have hc : (c.title == t) = true := beq_iff_eq.mpr (by simpa using hm)
      simp [chainWalk, hc]
    | succ j =>
      have hc : (c.title == t) = false :=
        beq_eq_false_iff_ne.mpr (by simpa using hb 0 (by omega) (by omega))
      have ih' := ih j (by simpa using Nat.lt_of_succ_lt_succ hi) (by simpa using hm)
        (fun k hk hkj => by simpa using hb (k + 1) (by omega) (by omega))
      simp [chainWalk, hc, ih']

/-- C1: with head and target resolved, a merge-base distinct from the target,
and a parsed candidate chain and target commit, `get_target` walks the chain
newest to oldest: if no commit's title equals the target commit's title the
run exits fatally with code 1; otherwise the first match (position `i`)
becomes the rebase ancestor and the commits walked past (the chain's first
`i` commits, ancestor excluded) form the returned rebase chain. -/
theorem get_target_chain_walk
    (repo : RepoView) (hn tn h t mb : String) (chain : List Commit)
    (tc : Commit) (rest : List Commit)
    (hh : repo.revParse hn = Except.ok h) (hfx : strTrim h = h)
    (ht : repo.revParse tn = Except.ok t) (tfx : strTrim t = t)
    (hm : repo.mergeBase h t = Except.ok mb) (mfx : strTrim mb = mb)
    (hmb : mb ≠ t)
    (hchain : get_log repo h mb = (Except.ok chain, []))
    (htc : get_log repo t (t ++ "~1") = (Except.ok (tc :: rest), [])) :
    ((∀ c ∈ chain, c.title ≠ tc.title) →
       get_target repo hn tn = (Except.error (Outcome.exit 1), []))
    ∧ (∀ i, (hi : i < chain.length) → (chain[i]).title = tc.title →
        (∀ j, (hj : j < chain.length) → j < i → (chain[j]).title ≠ tc.title) →
        get_target repo hn tn = (Except.ok (chain.take i, chain[i], tc), [])) := by
  have hbe : (mb == t) = false := beq_eq_false_iff_ne.mpr hmb
  constructor
  · intro hnone
    have hw := chainWalk_no_match chain tc.title hnone
    simp [get_target, liftRead, bindM, throwM, retM, hh, ht, hm, hfx, tfx, mfx, hbe,
          hchain, htc, hw]
  · intro i hi hmatch hbefore
    have hw := chainWalk_match chain tc.title i hi hmatch hbefore
    simp [get_target, liftRead, bindM, throwM, retM, hh, ht, hm, hfx, tfx, mfx, hbe,
          hchain, htc, hw]

/-- Witness for `get_target_chain_walk` on `repoC1`: the first (and only)
title match sits at position 2, so the rebase chain is the two newer commits
and the ancestor is the old copy of the target. -/
theorem get_target_chain_walk_witness :
    get_target repoC1 "h" "t" =
      (Except.ok ([c2C1, c1C1, aC1].take 2, [c2C1, c1C1, aC1][2], tcC1), []) :=
  (get_target_chain_walk repoC1 "h" "t" "H" "T" "M" [c2C1, c1C1, aC1] tcC1 []
      rfl rfl rfl rfl rfl rfl (by decide) rfl rfl).2 2 (by decide) (by decide)
    (by decide)

/-- C4 counterexample: in `repoC4` the target resolves to `T`, whose
predecessor in history is its parent `P ≠ T`; under the faithful
linear-history range semantics the size-one query `target~1..target` lists
exactly the target commit itself, and `get_target` returns the TargetCommit
with hash `T` — the target, not its predecessor. -/
theorem get_target_target_read_cex :
    parC4 "T" = some "P" ∧ ("T" : String) ≠ "P" ∧
    logRange parC4 8 "T" "P" = ["T"] ∧
    get_target repoC4 "h" "t" =
      (Except.ok ([⟨"C2", [], "c2"⟩, ⟨"C1", [], "c1"⟩],
                  ⟨"A", [], "base"⟩, ⟨"T", [], "base"⟩), []) :=
  ⟨rfl, by decide, rfl, rfl⟩

/-- C4 (amended): when the head is not already based on the target, the
TargetCommit is whatever single commit heads the result of the one range
query `target~1..target` — on a linear history that is the target commit
itself; if that query parses to no commit at all, the run exits fatally
with code 1. -/
theorem get_target_target_read
    (repo : RepoView) (hn tn h t mb : String) (chain : List Commit)
    (hh : repo.revParse hn = Except.ok h) (hfx : strTrim h = h)
    (ht : repo.revParse tn = Except.ok t) (tfx : strTrim t = t)
    (hm : repo.mergeBase h t = Except.ok mb) (mfx : strTrim mb = mb)
    (hmb : mb ≠ t)
    (hchain : get_log repo h mb = (Except.ok chain, [])) :
    (get_log repo t (t ++ "~1") = (Except.ok [], []) →
       get_target repo hn tn = (Except.error (Outcome.exit 1), []))
    ∧ (∀ tc rest, get_log repo t (t ++ "~1") = (Except.ok (tc :: rest), []) →
        get_target repo hn tn = (Except.error (Outcome.exit 1), []) ∨
        ∃ ch anc, get_target repo hn tn = (Except.ok (ch, anc, tc), [])) := by
  have hbe : (mb == t) = false := beq_eq_false_iff_ne.mpr hmb
  constructor
  · intro hempty
    simp [get_target, liftRead, bindM, throwM, retM, hh, ht, hm, hfx, tfx, mfx, hbe,
          hchain, hempty]
  · intro tc rest htc
    rcases hcw : chainWalk chain tc.title with ⟨ch, anc⟩
    cases anc with
    | none =>
      left
      simp [get_target, liftRead, bindM, throwM, retM, hh, ht, hm, hfx, tfx, mfx, hbe,
            hchain, htc, hcw]
    | some a =>
      right
      refine ⟨ch, a, ?_⟩
      simp [get_target, liftRead, bindM, throwM, retM, hh, ht, hm, hfx, tfx, mfx, hbe,
            hchain, htc, hcw]

/-- Witness for `get_target_target_read`: `repoC4w`'s predecessor query
parses to no commit, so the run exits fatally with code 1. -/
theorem get_target_target_read_witness :
    get_target repoC4w "h" "t" = (Except.error (Outcome.exit 1), []) :=
  (get_target_target_read repoC4w "h" "t" "H" "T" "M" [⟨"A", [], "base"⟩]
      rfl rfl rfl rfl rfl rfl (by decide) rfl).1 rfl

/-- C2: when the freshly read post-rebase chain's length differs from the
original chain's, `relabel` issues no ref update at all (the whole mutation
trace is the single revert checkout), reverts the working position to the
original chain's newest commit, and terminates via `sys.exit(1)`. -/
theorem relabel_length_mismatch
    (repo : RepoView) (o0 : Commit) (orest : List Commit) (tc nc : Commit)
    (push : Option String) (dry force : Bool) (newChain : List Commit) (s : String)
    (hnew : get_log repo nc.hash tc.hash = (Except.ok newChain, []))
    (hlen : newChain.length ≠ (o0 :: orest).length)
    (hck : repo.run (GitCmd.checkout o0.hash) = Except.ok s) :
    relabel repo (o0 :: orest) tc nc push dry force =
      (Except.error (Outcome.exit 1), [GitCmd.checkout o0.hash]) := by
  have hb : (newChain.length != (o0 :: orest).length) = true := bne_iff_ne.mpr hlen
  simp [relabel, bindM, throwM, excRun, hnew, hb, hck]
  intro h
  exact absurd h (by simpa using hlen)

/-- Witness for `relabel_length_mismatch`: one original commit, an empty
post-rebase read. -/
theorem relabel_length_mismatch_witness :
    relabel repoC2 [⟨"H", [], "x"⟩] ⟨"T", [], "base"⟩ ⟨"N", [], "x"⟩ none false false =
      (Except.error (Outcome.exit 1), [GitCmd.checkout "H"]) :=
  relabel_length_mismatch repoC2 ⟨"H", [], "x"⟩ [] ⟨"T", [], "base"⟩ ⟨"N", [], "x"⟩
    none false false [] "" rfl (by decide) rfl

/-- With no `push` remote the first per-pair loop does nothing and reports
"not pushed". -/
theorem remoteLoop_none_eq (repo : RepoView) (new : Commit) (dry : Bool)
    (refs : List Ref) :
    remoteLoop repo none new dry refs = (Except.ok false, []) := by
  induction refs with
  | nil => rfl
  | cons r rest ih => simp [remoteLoop, ih]

/-- Characterisation of the first per-pair loop (non-dry, all pushes
succeeding): it force-pushes exactly the refs on the `push` remote, in
order, and reports whether any such ref existed. -/
theorem remoteLoop_some_eq (repo : RepoView) (p : String) (new : Commit)
    (refs : List Ref) (hok : ∀ c : GitCmd, ∃ s, repo.run c = Except.ok s) :
    remoteLoop repo (some p) new false refs =
      (Except.ok (refs.any (fun r => r.remote == some p)),
       (refs.filter (fun r => r.remote == some p)).map
         (fun r => GitCmd.push p (new.hash ++ ":" ++ r.name))) := by
  induction refs with
  | nil => rfl
  | cons r rest ih =>
    cases hr : (r.remote == some p) with
    | true =>
      obtain ⟨s, hs⟩ := hok (GitCmd.push p (new.hash ++ ":" ++ r.name))
      simp [remoteLoop, hr, update_remote, excRun, hs, bindM, retM, ih]
    | false => simp [remoteLoop, hr, ih]

/-- Characterisation of the second per-pair loop (non-dry, all commands
succeeding): for each local ref, an optional advance force-push (`push`
given, `force` set, pair not already pushed) followed by the local
update. -/
theorem localLoop_eq (repo : RepoView) (push : Option String) (new : Commit)
    (force pushed : Bool) (refs : List Ref)
    (hok : ∀ c : GitCmd, ∃ s, repo.run c = Except.ok s) :
    localLoop repo push new false force pushed refs =
      (Except.ok (),
       (refs.map (fun r =>
          if r.remote.isNone then
            (match push with
             | some p =>
               if force && !pushed then [GitCmd.push p (new.hash ++ ":" ++ r.name)]
               else []
             | none => ([] : List GitCmd)) ++ [GitCmd.updateRef r.path new.hash]
          else [])).flatten) := by
  induction refs with
  | nil => rfl
  | cons r rest ih =>
    cases hr : r.remote with
    | none =>
      cases push with
      | none =>
        obtain ⟨s, hs⟩ := hok (GitCmd.updateRef r.path new.hash)
        simp [localLoop, hr, update_local, excRun, hs, bindM, retM, ih]
      | some p =>
        cases hf : (force && !pushed) with
        | true =>
          obtain ⟨s1, hs1⟩ := hok (GitCmd.push p (new.hash ++ ":" ++ r.name))
          obtain ⟨s2, hs2⟩ := hok (GitCmd.updateRef r.path new.hash)
          simp [localLoop, hr, hf, update_remote, update_local, excRun, hs1, hs2,
                bindM, retM, ih]
        | false =>
          obtain ⟨s2, hs2⟩ := hok (GitCmd.updateRef r.path new.hash)
          simp [localLoop, hr, hf, update_local, excRun, hs2, bindM, retM, ih]
    | some q => simp [localLoop, hr, ih]

/-- C3: for one position-matched pair (non-dry, all engine commands
succeeding), `relabel`'s per-pair processing issues exactly the updates the
spec describes (`specRefUpdates`): every remote-tracking ref of the original
commit on the `push` remote is force-pushed to the new hash; every local ref
is force-pushed first exactly when `push` is given, `force` is set and the
pair was not already pushed to the remote, and is then always updated
locally to the new hash. -/
theorem relabel_pair_policy (repo : RepoView) (push : Option String)
    (force : Bool) (original new : Commit)
    (hok : ∀ c : GitCmd, ∃ s, repo.run c = Except.ok s) :
    relabelPair repo push false force original new =
      (Except.ok (), specRefUpdates push force original new) := by
  cases push with
  | none =>
    simp [relabelPair, bindM, remoteLoop_none_eq,
          localLoop_eq repo none new force false original.refs hok, specRefUpdates]
  | some p =>
    simp [relabelPair, bindM, remoteLoop_some_eq repo p new original.refs hok,
          localLoop_eq repo (some p) new force
            (original.refs.any fun r => r.remote == some p) original.refs hok,
          specRefUpdates]

/-- An original commit carrying one remote-tracking and one local ref. -/
def origC3 : Commit :=
  ⟨"C2", [⟨"main", "origin/main", some "origin"⟩, ⟨"main", "refs/heads/main", none⟩], "c2"⟩

/-- The rebased counterpart of `origC3`. -/
def newC3 : Commit := ⟨"N2", [], "c2"⟩

example : specRefUpdates (some "origin") true origC3 newC3 =
    [GitCmd.push "origin" "N2:main", GitCmd.updateRef "refs/heads/main" "N2"] := rfl

/-- Witness for `relabel_pair_policy` on a pair with a remote-tracking and a
local ref. -/
theorem relabel_pair_policy_witness :
    relabelPair repoC1 (some "origin") false true origC3 newC3 =
      (Except.ok (), specRefUpdates (some "origin") true origC3 newC3) :=
  relabel_pair_policy repoC1 (some "origin") true origC3 newC3 (fun _ => ⟨"", rfl⟩)

/-- Read-only queries execute no state-changing command. -/
theorem liftRead_trace (x : Except GitError String) : (liftRead x).2 = [] := by
  cases x <;> rfl

/-- A sequencing of two trace-free computations is trace-free. -/
theorem bindM_trace_nil {α β : Type} (x : M α) (f : α → M β) (hx : x.2 = [])
    (hf : ∀ a, (f a).2 = []) : (bindM x f).2 = [] := by
  rcases x with ⟨r, tr⟩
  simp only at hx
  subst hx
  cases r with
  | ok a =>
    rcases hfa : f a with ⟨r2, tr2⟩
    have h2 := hf a
    rw [hfa] at h2
    simp only at h2
    subst h2
    simp [bindM, hfa]
  | error e => rfl

/-- Every command in a sequenced trace comes from one of the parts. -/
theorem bindM_trace_mem {α β : Type} (x : M α) (f : α → M β) (c : GitCmd)
    (hc : c ∈ (bindM x f).2) : c ∈ x.2 ∨ ∃ a, c ∈ (f a).2 := by
  rcases x with ⟨r, tr⟩
  cases r with
  | ok a =>
    rcases hfa : f a with ⟨r2, tr2⟩
    simp [bindM, hfa] at hc
    rcases hc with h | h
    · exact Or.inl h
    · exact Or.inr ⟨a, by simp [hfa, h]⟩
  | error e =>
    simp [bindM] at hc
    exact Or.inl hc

/-- A command surviving `except NonzeroResponse` came from the body or the
handler. -/
theorem catchNZ_trace_mem {α : Type} (x : M α) (hdl : GitError → M α) (c : GitCmd)
    (hc : c ∈ (catchNZ x hdl).2) : c ∈ x.2 ∨ ∃ e, c ∈ (hdl e).2 := by
  rcases x with ⟨r, tr⟩
  cases r with
  | ok a => exact Or.inl hc
  | error o =>
    cases o with
    | exit n => exact Or.inl hc
    | pyError => exact Or.inl hc
    | procError e =>
      rcases hh : hdl e with ⟨r2, tr2⟩
      simp [catchNZ, hh] at hc
      rcases hc with h | h
      · exact Or.inl h
      · exact Or.inr ⟨e, by simp [hh, h]⟩

/-- `get_log` only reads. -/
theorem get_log_trace (repo : RepoView) (a b : String) : (get_log repo a b).2 = [] := by
  unfold get_log
  apply bindM_trace_nil _ _ (liftRead_trace _)
  intro s
  apply bindM_trace_nil _ _ (liftRead_trace _)
  intro s2
  rfl

/-- `get_current_head` only reads. -/
theorem get_current_head_trace (repo : RepoView) : (get_current_head repo).2 = [] := by
  unfold get_current_head
  apply bindM_trace_nil _ _ (liftRead_trace _)
  intro s
  by_cases hsw : strStartsWith repo.headFile "ref: " = true
  · simp only [hsw, if_true]
    cases parse_ref (strDrop repo.headFile 5) [] <;> rfl
  · simp only [hsw, if_false, Bool.false_eq_true]
    rfl

/-- `get_target` only reads. -/
theorem get_target_trace (repo : RepoView) (hn tn : String) :
    (get_target repo hn tn).2 = [] := by
  unfold get_target
  apply bindM_trace_nil _ _ (liftRead_trace _)
  intro h
  apply bindM_trace_nil _ _ (liftRead_trace _)
  intro t
  apply bindM_trace_nil _ _ (liftRead_trace _)
  intro mb
  split
  · rfl
  · apply bindM_trace_nil _ _ (get_log_trace _ _ _)
    intro chain
    apply bindM_trace_nil _ _ (get_log_trace _ _ _)
    intro tlog
    cases tlog with
    | nil => rfl
    | cons tc0 rest0 =>
      rcases hcw : chainWalk chain tc0.title with ⟨ch, anc⟩
      cases anc <;> simp [hcw, retM, throwM]

/-- The rebase step issues exactly the rebase command, in every branch of
the `except` handling. -/
theorem tryRebase_trace (repo : RepoView) (a b c : String) :
    (tryRebase repo a b c).2 = [GitCmd.rebaseOnto a b c] := by
  unfold tryRebase
  split
  · rfl
  · split
    · split <;> rfl
    · rfl

/-- `apply_rebase` never issues a ref mutation (its only command is the
rebase invocation). -/
theorem apply_rebase_no_refmut (repo : RepoView) (chain : List Commit)
    (anc tc : Commit) :
    ∀ c ∈ (apply_rebase repo chain anc tc).2, isRefMutation c = false := by
  cases chain with
  | nil => intro c hc; simp [apply_rebase, retM] at hc
  | cons top rest =>
    intro c hc
    rcases bindM_trace_mem _ _ c hc with h | ⟨a, h⟩
    · rw [tryRebase_trace] at h
      simp at h
      subst h
      rfl
    · rcases bindM_trace_mem _ _ c h with h2 | ⟨l, h2⟩
      · rw [get_log_trace] at h2
        simp at h2
      · cases l with
        | nil => simp [throwM] at h2
        | cons c0 cr => simp [retM] at h2

/-- With `dry`, `exc` executes nothing. -/
theorem excRun_dry_trace (repo : RepoView) (c : GitCmd) :
    (excRun repo c true).2 = [] := rfl

/-- Without `dry`, `exc` issues exactly its command (succeeding or not). -/
theorem excRun_false_trace (repo : RepoView) (c : GitCmd) :
    (excRun repo c false).2 = [c] := by
  unfold excRun
  split
  · simp at *
  · split <;> rfl

/-- `update_remote` executes nothing under `dry`. -/
theorem update_remote_dry_trace (repo : RepoView) (p : String) (ref : Ref)
    (new : Commit) : (update_remote repo p ref new true).2 = [] := rfl

/-- `update_local` executes nothing under `dry`. -/
theorem update_local_dry_trace (repo : RepoView) (ref : Ref) (new : Commit) :
    (update_local repo ref new true).2 = [] := rfl

/-- The first per-pair loop executes nothing under `dry`. -/
theorem remoteLoop_dry_trace (repo : RepoView) (push : Option String)
    (new : Commit) (refs : List Ref) :
    (remoteLoop repo push new true refs).2 = [] := by
  induction refs with
  | nil => rfl
  | cons r rest ih =>
    cases push with
    | none => simpa [remoteLoop] using ih
    | some p =>
      simp only [remoteLoop]
      split
      · apply bindM_trace_nil _ _ (update_remote_dry_trace _ _ _ _)
        intro a
        apply bindM_trace_nil _ _ ih
        intro b
        rfl
      · exact ih

/-- The second per-pair loop executes nothing under `dry`. -/
theorem localLoop_dry_trace (repo : RepoView) (push : Option String)
    (new : Commit) (force pushed : Bool) (refs : List Ref) :
    (localLoop repo push new true force pushed refs).2 = [] := by
  induction refs with
  | nil => rfl
  | cons r rest ih =>
    cases hr : r.remote with
    | some q => simpa [localLoop, hr] using ih
    | none =>
      simp only [localLoop, hr]
      apply bindM_trace_nil
      · cases push with
        | none => rfl
        | some p =>
          split
          · split
            · exact update_remote_dry_trace _ _ _ _
            · rfl
          · rfl
      · intro a
        apply bindM_trace_nil _ _ (update_local_dry_trace _ _ _)
        intro b
        exact ih

/-- A pair is processed without executing anything under `dry`. -/
theorem relabelPair_dry_trace (repo : RepoView) (push : Option String)
    (force : Bool) (o n : Commit) :
    (relabelPair repo push true force o n).2 = [] := by
  unfold relabelPair
  apply bindM_trace_nil _ _ (remoteLoop_dry_trace _ _ _ _)
  intro pushed
  exact localLoop_dry_trace _ _ _ _ _ _

/-- The whole pair loop executes nothing under `dry`. -/
theorem relabelPairs_dry_trace (repo : RepoView) (push : Option String)
    (force : Bool) (prs : List (Commit × Commit)) :
    (relabelPairs repo push true force prs).2 = [] := by
  induction prs with
  | nil => rfl
  | cons pr rest ih =>
    rcases pr with ⟨o, n⟩
    unfold relabelPairs
    apply bindM_trace_nil _ _ (relabelPair_dry_trace _ _ _ _ _)
    intro a
    exact ih

/-- Under `dry`, `relabel` issues no ref mutation (only, on the mismatch
branch, the revert checkout). -/
theorem relabel_dry_no_refmut (repo : RepoView) (orig : List Commit)
    (tc nc : Commit) (push : Option String) (force : Bool) :
    ∀ c ∈ (relabel repo orig tc nc push true force).2, isRefMutation c = false := by
  intro c hc
  rcases bindM_trace_mem _ _ c hc with h | ⟨l, h⟩
  · rw [get_log_trace] at h
    simp at h
  · revert h
    split
    · split
      · intro h; simp [throwM] at h
      · intro h
        rcases bindM_trace_mem _ _ c h with h2 | ⟨a, h2⟩
        · rw [excRun_false_trace] at h2
          simp at h2
          subst h2
          rfl
        · simp [throwM] at h2
    · intro h
      rw [relabelPairs_dry_trace] at h
      simp at h

/-- Under `dry`, the pipeline issues no ref mutation. -/
theorem pipeline_dry_no_refmut (repo : RepoView) (args : Args)
    (hdry : args.dry = true) :
    ∀ c ∈ (pipeline repo args).2, isRefMutation c = false := by
  intro c hc
  rcases bindM_trace_mem _ _ c hc with h | ⟨r, h⟩
  · rw [get_target_trace] at h
    simp at h
  · rcases r with ⟨chain, anc, tcm⟩
    rcases bindM_trace_mem _ _ c h with h2 | ⟨newc, h2⟩
    · exact apply_rebase_no_refmut repo chain anc tcm c h2
    · cases newc with
      | none => simp [retM] at h2
      | some nc =>
        rw [hdry] at h2
        have h2b : c ∈ (bindM (relabel repo chain tcm nc args.push true args.force)
            (fun _ => retM true)).2 := h2
        rcases bindM_trace_mem _ _ c h2b with h3 | ⟨a, h3⟩
        · exact relabel_dry_no_refmut repo chain tcm nc args.push args.force c h3
        · simp [retM] at h3

/-- C6 counterexample: a full `--dry` run on `repoC6` actually executes the
rebase invocation and the final checkout — with `dry` set, only ref updates
and pushes are suppressed, not every mutating operation. -/
theorem dry_run_executes_cex :
    argsDry.dry = true ∧
    mainRun repoC6 argsDry =
      (Except.ok (), [GitCmd.rebaseOnto "T" "A" "C2", GitCmd.checkout "main"]) :=
  ⟨rfl, rfl⟩

/-- C6 (amended): with `dry` set, no ref-mutating command (remote push or
local ref update) is ever executed by a run — the rebase invocation and
checkouts, which go through `exc` without the `dry` flag, still execute. -/
theorem dry_no_ref_mutation (repo : RepoView) (args : Args) (hdry : args.dry = true) :
    ∀ c ∈ (mainRun repo args).2, isRefMutation c = false := by
  intro c hc
  unfold mainRun at hc
  revert hc
  split
  · intro hc; simp [throwM] at hc
  · intro hc
    rcases bindM_trace_mem _ _ c hc with h | ⟨ch, h⟩
    · rw [get_current_head_trace] at h
      simp at h
    · rcases bindM_trace_mem _ _ c h with h2 | ⟨u, h2⟩
      · rcases catchNZ_trace_mem _ _ c h2 with h3 | ⟨e, h3⟩
        · exact pipeline_dry_no_refmut repo args hdry c h3
        · simp [retM] at h3
      · cases u with
        | false => simp [retM] at h2
        | true =>
          simp [excRun_false_trace] at h2
          subst h2
          rfl

/-- Witness for `dry_no_ref_mutation`: the checkout executed by the dry run
on `repoC6` is indeed not a ref mutation. -/
theorem dry_no_ref_mutation_witness :
    isRefMutation (GitCmd.checkout "main") = false :=
  dry_no_ref_mutation repoC6 argsDry rfl (GitCmd.checkout "main") (by decide)

/-- C5 counterexample: on `repoC5` the ancestor cannot be identified, a
fatal resolution error; the run terminates via `sys.exit(1)` with an empty
mutation trace — no checkout back to the original starting head is ever
executed, because `SystemExit` is not caught by `main`'s
`except NonzeroResponse` and the final checkout line is skipped. -/
theorem main_restore_cex :
    mainRun repoC5 argsPlain = (Except.error (Outcome.exit 1), []) := rfl

/-- C5 (amended): the final restore checkout of the starting head runs
exactly on the paths that fall through the `try` statement — a run whose
body completes through `relabel`, and a run whose `NonzeroResponse` is
caught by `main` — while the empty-chain no-op finishes without it (the
early `return` of cmd.py lines 80-81 exits `main` before line 95), as do
the `sys.exit` paths (already-based short-circuit, fatal resolution
errors, length mismatch). -/
theorem main_restore (repo : RepoView) (args : Args) (ch : String)
    (hv : ¬(1 < args.verbose ∧ args.quiet = true))
    (hch : get_current_head repo = (Except.ok ch, [])) :
    ((pipeline repo args).1 = Except.ok true →
       (mainRun repo args).2 = (pipeline repo args).2 ++ [GitCmd.checkout ch])
    ∧ (∀ e, (pipeline repo args).1 = Except.error (Outcome.procError e) →
       (mainRun repo args).2 = (pipeline repo args).2 ++ [GitCmd.checkout ch])
    ∧ ((pipeline repo args).1 = Except.ok false →
       (mainRun repo args).2 = (pipeline repo args).2) := by
  rcases hpr : pipeline repo args with ⟨r, tr⟩
  refine ⟨?_, ?_, ?_⟩
  · intro h
    have hr : r = Except.ok true := h
    subst hr
    unfold mainRun
    rw [if_neg hv]
    cases hrun : repo.run (GitCmd.checkout ch) <;>
      simp [bindM, hch, catchNZ, hpr, excRun, hrun, retM]
  · intro e h
    have hr : r = Except.error (Outcome.procError e) := h
    subst hr
    unfold mainRun
    rw [if_neg hv]
    cases hrun : repo.run (GitCmd.checkout ch) <;>
      simp [bindM, hch, catchNZ, hpr, excRun, hrun, retM]
  · intro h
    have hr : r = Except.ok false := h
    subst hr
    unfold mainRun
    rw [if_neg hv]
    simp [bindM, hch, catchNZ, hpr, retM]

/-- Witness for `main_restore`: the empty-chain no-op on `repoC5w` ends
with no further command after the pipeline — in particular no checkout of
the starting head. -/
theorem main_restore_witness :
    (mainRun repoC5w argsPlain).2 = (pipeline repoC5w argsPlain).2 :=
  (main_restore repoC5w argsPlain "main" (by decide) rfl).2.2 rfl

/-- C8 counterexample: on `repoC8` revision resolution fails, so a
`NonzeroResponse` (exit status 128) propagates out of the pipeline; `main`
catches it, reports it, performs the final checkout — and the process then
finishes with exit code 0, not 1: the handler never calls `sys.exit(1)`. -/
theorem main_procfailure_cex :
    (pipeline repoC8 argsPlain).1 = Except.error (Outcome.procError eC8) ∧
    eC8.code = 128 ∧
    mainRun repoC8 argsPlain = (Except.ok (), [GitCmd.checkout "main"]) ∧
    exitCodeOf (mainRun repoC8 argsPlain).1 = 0 :=
  ⟨rfl, rfl, rfl, rfl⟩

/-- C8 (amended): a non-conflict process failure propagating out of the
pipeline is caught by `main`; when the final checkout then succeeds, the
program terminates with exit code 0 (the reported error notwithstanding) —
exit code 1 is produced by the `sys.exit(1)` paths, not by propagated
`NonzeroResponse`s. -/
theorem main_procfailure_exit_code (repo : RepoView) (args : Args) (ch : String)
    (e : GitError)
    (hv : ¬(1 < args.verbose ∧ args.quiet = true))
    (hch : get_current_head repo = (Except.ok ch, []))
    (hp : (pipeline repo args).1 = Except.error (Outcome.procError e))
    (hck : ∃ s, repo.run (GitCmd.checkout ch) = Except.ok s) :
    (mainRun repo args).1 = Except.ok () ∧ exitCodeOf (mainRun repo args).1 = 0 := by
  obtain ⟨s, hs⟩ := hck
  rcases hpr : pipeline repo args with ⟨r, tr⟩
  rw [hpr] at hp
  have hr : r = Except.error (Outcome.procError e) := hp
  subst hr
  have hok : (mainRun repo args).1 = Except.ok () := by
    unfold mainRun
    rw [if_neg hv]
    simp [bindM, hch, catchNZ, hpr, excRun, hs, retM]
  exact ⟨hok, by rw [hok]; rfl⟩

/-- Witness for `main_procfailure_exit_code` on `repoC8`. -/
theorem main_procfailure_exit_code_witness :
    (mainRun repoC8 argsPlain).1 = Except.ok () ∧
    exitCodeOf (mainRun repoC8 argsPlain).1 = 0 :=
  main_procfailure_exit_code repoC8 argsPlain "main" eC8 (by decide) rfl rfl ⟨"", rfl⟩

/-- C7: the rebase invocation on `repoC7` exits with the non-conflict status
128, yet `apply_rebase` returns successfully with the read-back head commit:
the `except NonzeroResponse` clause catches every nonzero status and only
the `code == 1` branch does anything, so non-conflict failures are silently
swallowed and fall through to the read-back instead of propagating. -/
theorem apply_rebase_swallow_bug :
    repoC7.run (GitCmd.rebaseOnto "T" "A" "C2") = Except.error eC7 ∧
    eC7.code ≠ 1 ∧
    apply_rebase repoC7 [⟨"C2", [], "c2"⟩] ⟨"A", [], "base"⟩ ⟨"T", [], "base"⟩ =
      (Except.ok (some ⟨"H0", [], "c2"⟩), [GitCmd.rebaseOnto "T" "A" "C2"]) :=
  ⟨rfl, by decide, rfl⟩
